import Mathlib

/-!
Verification development for the MilkDAWp audio-to-visual pipeline core.

Every definition below is a shallow embedding of the C++ sources under
`src/`:

* `milkdawp.QState`, `milkdawp.tryPush`, `milkdawp.tryPop`,
  `milkdawp.getNumAvailable` embed `ThreadSafeSPSCQueue` from
  `src/ThreadSafeQueue.h` (the identical ring also appears as
  `AudioAnalysisQueue` in `src/AudioAnalysisQueue.h`).  The C++ ring
  stores `head`/`tail` as `size_t` counters that grow without bound and
  are reduced with `& mask` (`mask = CapacityPow2 - 1`) at every use.
  We model the counters as `Nat`; single-producer/single-consumer use
  keeps `tail ≤ head`, so `size_t` subtraction `head - tail` agrees with
  `Nat` subtraction, and the 2^64 wraparound of the counters is
  invisible through `& mask` because the power-of-two capacity divides
  2^64.
* `milkdawp` producer state embeds `produceAnalysisSnapshot` from
  `src/PluginProcessor.cpp` (float arithmetic modelled exactly over ℚ).
* `milkdawp.SharedAssetCache` operations embed `src/SharedAssetCache.h`
  with the cache map as a function `String → Option PresetMeta`
  (`juce::HashMap::set` replaces the value of an existing key).
* `milkdawp.AdaptiveQualityController` embeds `src/AdaptiveQuality.h`
  (double arithmetic modelled exactly over ℚ).
* `milkdawp.MessageThreadBridge` / `VisualizationThread` posting and
  preset-load draining embed `src/MessageThreadBridge.h` and
  `src/VisualizationThread.h`.
-/

namespace milkdawp

/-- State of `ThreadSafeSPSCQueue<T, CapacityPow2>` (src/ThreadSafeQueue.h):
a backing buffer, a producer index `head` and a consumer index `tail`.
The buffer is modelled as a total function from masked slot index to
item; the constructor default-initialises all slots. -/
structure QState (α : Type) where
  buf : Nat → α
  head : Nat
  tail : Nat

/-- Constructor `ThreadSafeSPSCQueue()` : head = 0, tail = 0, default-initialised
buffer (`std::array<T, CapacityPow2> buffer{}`). -/
def qInit {α : Type} (d : α) : QState α :=
  ⟨fun _ => d, 0, 0⟩

/-- Operation `tryPush` (src/ThreadSafeQueue.h lines 16-25): fail (return the
state unchanged) iff `((h + 1) & mask) == (t & mask)`, otherwise write
`buffer[h & mask] = v` and store `h + 1`.  `N` is the template capacity
`CapacityPow2`, so `mask = N - 1`. -/
def tryPush {α : Type} (N : Nat) (s : QState α) (v : α) : Bool × QState α :=
  if ((s.head + 1) &&& (N - 1)) = (s.tail &&& (N - 1)) then
    (false, s)
  else
    (true, { s with
      buf := fun i => if i = (s.head &&& (N - 1)) then v else s.buf i,
      head := s.head + 1 })

/-- Operation `tryPop` (src/ThreadSafeQueue.h lines 27-36): fail iff
`(t & mask) == (h & mask)`, otherwise read `buffer[t & mask]` and store
`t + 1`. -/
def tryPop {α : Type} (N : Nat) (s : QState α) : Option α × QState α :=
  if (s.tail &&& (N - 1)) = (s.head &&& (N - 1)) then
    (none, s)
  else
    (some (s.buf (s.tail &&& (N - 1))), { s with tail := s.tail + 1 })

/-- Operation `getNumAvailable` (src/ThreadSafeQueue.h lines 38-43):
`(head - tail) & mask`.  (`size_t` subtraction; with the SPSC invariant
`tail ≤ head` it coincides with `Nat` subtraction.) -/
def getNumAvailable {α : Type} (N : Nat) (s : QState α) : Nat :=
  (s.head - s.tail) &&& (N - 1)

/-- The abstract FIFO contents of the ring: the items written at masked
positions `tail, tail+1, …, head-1`, oldest first. -/
def absQ {α : Type} (N : Nat) (s : QState α) : List α :=
  (List.range (s.head - s.tail)).map (fun i => s.buf ((s.tail + i) &&& (N - 1)))

/-- Well-formedness maintained by SPSC use of a capacity-`N` ring:
the consumer index never passes the producer index, and at most `N - 1`
items are pending. -/
def QInv {α : Type} (N : Nat) (s : QState α) : Prop :=
  s.tail ≤ s.head ∧ s.head - s.tail ≤ N - 1

theorem qInit_inv {α : Type} (N : Nat) (d : α) : QInv N (qInit d) := by
  constructor <;> simp [qInit]

theorem absQ_qInit {α : Type} (N : Nat) (d : α) : absQ N (qInit d) = [] := by
  simp [absQ, qInit]

/-- The source masks with `& (N-1)` where `N = 2^k` (enforced by the
`static_assert`); this is reduction mod `N`. -/
theorem mask_eq_mod (k x : Nat) : x &&& (2 ^ k - 1) = x % 2 ^ k :=
  Nat.and_pow_two_sub_one_eq_mod x k

/-- The full test `((h+1) & mask) == (t & mask)` fires exactly when
`N - 1` items are pending. -/
theorem push_full_iff (k h t : Nat) (hle : t ≤ h) (hb : h - t ≤ 2 ^ k - 1) :
    ((h + 1) % 2 ^ k = t % 2 ^ k) ↔ h - t = 2 ^ k - 1 := by
  have hNpos : 0 < 2 ^ k := Nat.two_pow_pos k
  constructor
  · intro heq
    have hdvd : (2 ^ k : Nat) ∣ (h + 1 - t) :=
      (Nat.modEq_iff_dvd' (by omega)).mp heq.symm
    have h1 : 0 < h + 1 - t := by omega
    have h2 := Nat.le_of_dvd h1 hdvd
    omega
  · intro heq
    have hdvd : (2 ^ k : Nat) ∣ (h + 1 - t) := by
      have : h + 1 - t = 2 ^ k := by omega
      exact this ▸ dvd_refl _
    exact ((Nat.modEq_iff_dvd' (by omega)).mpr hdvd).symm

/-- The empty test `(t & mask) == (h & mask)` fires exactly when no item
is pending. -/
theorem pop_empty_iff (k h t : Nat) (hle : t ≤ h) (hb : h - t ≤ 2 ^ k - 1) :
    (t % 2 ^ k = h % 2 ^ k) ↔ t = h := by
  have hNpos : 0 < 2 ^ k := Nat.two_pow_pos k
  constructor
  · intro heq
    have hdvd : (2 ^ k : Nat) ∣ (h - t) :=
      (Nat.modEq_iff_dvd' hle).mp heq
    rcases Nat.eq_zero_or_pos (h - t) with h0 | hpos
    · omega
    · have := Nat.le_of_dvd hpos hdvd
      omega
  · intro heq
    rw [heq]

/-- A failing `tryPush` leaves the state untouched. -/
theorem tryPush_full {α : Type} (k : Nat) (s : QState α) (v : α)
    (hinv : QInv (2 ^ k) s) (hfull : s.head - s.tail = 2 ^ k - 1) :
    tryPush (2 ^ k) s v = (false, s) := by
  obtain ⟨hle, hb⟩ := hinv
  rw [tryPush, mask_eq_mod, mask_eq_mod,
    if_pos ((push_full_iff k s.head s.tail hle hb).mpr hfull)]

/-- A `tryPush` on a non-full ring succeeds, advances `head`, keeps the
invariant and appends the item to the abstract FIFO contents. -/
theorem tryPush_ok {α : Type} (k : Nat) (s : QState α) (v : α)
    (hinv : QInv (2 ^ k) s) (hroom : s.head - s.tail < 2 ^ k - 1) :
    (tryPush (2 ^ k) s v).1 = true ∧
    QInv (2 ^ k) (tryPush (2 ^ k) s v).2 ∧
    absQ (2 ^ k) (tryPush (2 ^ k) s v).2 = absQ (2 ^ k) s ++ [v] ∧
    (tryPush (2 ^ k) s v).2.tail = s.tail ∧
    (tryPush (2 ^ k) s v).2.head = s.head + 1 := by
  obtain ⟨hle, hb⟩ := hinv
  have hNpos : 0 < 2 ^ k := Nat.two_pow_pos k
  have hne : ¬ ((s.head + 1) % 2 ^ k = s.tail % 2 ^ k) := by
    rw [push_full_iff k s.head s.tail hle hb]
    omega
  rw [tryPush, mask_eq_mod, mask_eq_mod, if_neg hne]
  refine ⟨rfl, ⟨by simp; omega, by simp; omega⟩, ?_, rfl, rfl⟩
  show (List.range (s.head + 1 - s.tail)).map _ = _ ++ [v]
  have hstep : s.head + 1 - s.tail = (s.head - s.tail) + 1 := by omega
  rw [hstep, List.range_succ, List.map_append, absQ]
  congr 1
  · apply List.map_congr_left
    intro i hi
    rw [List.mem_range] at hi
    have hne2 : (s.tail + i) % 2 ^ k ≠ s.head % 2 ^ k := by
      intro heq
      have hdvd : (2 ^ k : Nat) ∣ (s.head - (s.tail + i)) :=
        (Nat.modEq_iff_dvd' (by omega)).mp heq
      have hpos : 0 < s.head - (s.tail + i) := by omega
      have := Nat.le_of_dvd hpos hdvd
      omega
    dsimp only
    rw [mask_eq_mod, mask_eq_mod, if_neg hne2]
  · simp only [List.map_cons, List.map_nil, mask_eq_mod]
    rw [Nat.add_sub_cancel' hle, if_pos rfl]

/-- A `tryPop` on an empty ring fails and leaves the state untouched. -/
theorem tryPop_empty {α : Type} (k : Nat) (s : QState α)
    (hinv : QInv (2 ^ k) s) (hempty : s.tail = s.head) :
    tryPop (2 ^ k) s = (none, s) := by
  obtain ⟨hle, hb⟩ := hinv
  rw [tryPop, mask_eq_mod, mask_eq_mod,
    if_pos ((pop_empty_iff k s.head s.tail hle hb).mpr hempty)]

/-- A `tryPop` on a non-empty ring returns the oldest pending item,
advances `tail` and keeps the invariant. -/
theorem tryPop_ok {α : Type} (k : Nat) (s : QState α)
    (hinv : QInv (2 ^ k) s) (hne : s.tail < s.head) :
    (tryPop (2 ^ k) s).1 = some (s.buf (s.tail % 2 ^ k)) ∧
    QInv (2 ^ k) (tryPop (2 ^ k) s).2 ∧
    absQ (2 ^ k) s = s.buf (s.tail % 2 ^ k) :: absQ (2 ^ k) (tryPop (2 ^ k) s).2 ∧
    (tryPop (2 ^ k) s).2.tail = s.tail + 1 ∧
    (tryPop (2 ^ k) s).2.head = s.head := by
  obtain ⟨hle, hb⟩ := hinv
  have hcne : ¬ (s.tail % 2 ^ k = s.head % 2 ^ k) := by
    rw [pop_empty_iff k s.head s.tail hle hb]
    omega
  rw [tryPop, mask_eq_mod, mask_eq_mod, if_neg hcne]
  refine ⟨rfl, ⟨by simp; omega, by simp; omega⟩, ?_, rfl, rfl⟩
  show (List.range (s.head - s.tail)).map _ = _ :: (List.range (s.head - (s.tail + 1))).map _
  have hstep : s.head - s.tail = (s.head - (s.tail + 1)) + 1 := by omega
  rw [hstep, List.range_succ_eq_map, List.map_cons, List.map_map]
  congr 1
  · rw [mask_eq_mod]
    simp
  · apply List.map_congr_left
    intro i _
    simp only [Function.comp_apply, mask_eq_mod]
    have harg : s.tail + Nat.succ i = s.tail + 1 + i := by omega
    rw [harg]

/-- One producer/consumer interaction with the ring: a `tryPush` of a
value, or a `tryPop`. -/
inductive QOp (α : Type) where
  | push (v : α)
  | pop

/-- Run a sequence of interleaved `tryPush`/`tryPop` calls.  Returns the
final ring state, the list of successfully pushed values (push order)
and the list of values returned by successful pops (pop order). -/
def runOps {α : Type} (N : Nat) : QState α → List (QOp α) → QState α × List α × List α
  | s, [] => (s, [], [])
  | s, QOp.push v :: rest =>
      let r := tryPush N s v
      let r2 := runOps N r.2 rest
      (r2.1, (if r.1 then [v] else []) ++ r2.2.1, r2.2.2)
  | s, QOp.pop :: rest =>
      let r := tryPop N s
      let r2 := runOps N r.2 rest
      (r2.1, r2.2.1, (match r.1 with | some v => [v] | none => []) ++ r2.2.2)

/-- Soundness of any interleaved run: the invariant is preserved, and
the popped values followed by the still-pending values are exactly the
successfully pushed values appended to the initially pending ones. -/
theorem runOps_spec {α : Type} (k : Nat) (ops : List (QOp α)) :
    ∀ s : QState α, QInv (2 ^ k) s →
      QInv (2 ^ k) (runOps (2 ^ k) s ops).1 ∧
      (runOps (2 ^ k) s ops).2.2 ++ absQ (2 ^ k) (runOps (2 ^ k) s ops).1 =
        absQ (2 ^ k) s ++ (runOps (2 ^ k) s ops).2.1 := by
  induction ops with
  | nil => intro s hinv; simpa [runOps] using hinv
  | cons op rest ih =>
    intro s hinv
    cases op with
    | push v =>
      by_cases hfull : s.head - s.tail = 2 ^ k - 1
      · have hp := tryPush_full k s v hinv hfull
        have := ih s hinv
        simp only [runOps, hp]
        simpa using this
      · have hroom : s.head - s.tail < 2 ^ k - 1 :=
          lt_of_le_of_ne hinv.2 hfull
        obtain ⟨hok, hinv', habs, -, -⟩ := tryPush_ok k s v hinv hroom
        obtain ⟨hinv'', heq⟩ := ih _ hinv'
        refine ⟨by simpa [runOps] using hinv'', ?_⟩
        simp only [runOps, hok, if_true]
        rw [heq, habs]
        simp
    | pop =>
      by_cases hempty : s.tail = s.head
      · have hp := tryPop_empty k s hinv hempty
        have := ih s hinv
        simp only [runOps, hp]
        simpa using this
      · have hlt : s.tail < s.head := lt_of_le_of_ne hinv.1 hempty
        obtain ⟨hsome, hinv', habs, -, -⟩ := tryPop_ok k s hinv hlt
        obtain ⟨hinv'', heq⟩ := ih _ hinv'
        refine ⟨by simpa [runOps] using hinv'', ?_⟩
        simp only [runOps, hsome]
        rw [habs]
        simpa using heq

/-- Consecutive `tryPush` calls for a list of values, recording each
call's return value. -/
def pushAll {α : Type} (N : Nat) (s : QState α) : List α → QState α × List Bool
  | [] => (s, [])
  | v :: vs =>
      let r := tryPush N s v
      let r2 := pushAll N r.2 vs
      (r2.1, r.1 :: r2.2)

/-- Performs `n` consecutive `tryPop` calls, collecting the returned values. -/
def popN {α : Type} (N : Nat) (s : QState α) : Nat → QState α × List α
  | 0 => (s, [])
  | n + 1 =>
      let r := tryPop N s
      let r2 := popN N r.2 n
      (r2.1, (match r.1 with | some v => [v] | none => []) ++ r2.2)

theorem pushAll_ok {α : Type} (k : Nat) (vs : List α) :
    ∀ s : QState α, QInv (2 ^ k) s →
      s.head - s.tail + vs.length ≤ 2 ^ k - 1 →
      (pushAll (2 ^ k) s vs).2 = List.replicate vs.length true ∧
      QInv (2 ^ k) (pushAll (2 ^ k) s vs).1 ∧
      absQ (2 ^ k) (pushAll (2 ^ k) s vs).1 = absQ (2 ^ k) s ++ vs ∧
      (pushAll (2 ^ k) s vs).1.tail = s.tail ∧
      (pushAll (2 ^ k) s vs).1.head = s.head + vs.length := by
  induction vs with
  | nil => intro s hinv _; simp [pushAll, hinv]
  | cons v vs ih =>
    intro s hinv hroom
    have hlt : s.head - s.tail < 2 ^ k - 1 := by
      simp only [List.length_cons] at hroom
      omega
    obtain ⟨hok, hinv', habs, ht, hh⟩ := tryPush_ok k s v hinv hlt
    have hroom' : (tryPush (2 ^ k) s v).2.head - (tryPush (2 ^ k) s v).2.tail
        + vs.length ≤ 2 ^ k - 1 := by
      rw [ht, hh]
      simp only [List.length_cons] at hroom
      omega
    obtain ⟨hr, hi, ha, ht2, hh2⟩ := ih _ hinv' hroom'
    refine ⟨?_, by simpa [pushAll] using hi, ?_, ?_, ?_⟩
    · simp [pushAll, hok, hr, List.replicate_succ]
    · simp only [pushAll]
      rw [ha, habs, List.append_assoc]
      rfl
    · simp only [pushAll]
      rw [ht2, ht]
    · simp only [pushAll]
      rw [hh2, hh, List.length_cons]
      omega

theorem popN_drain {α : Type} (k : Nat) (n : Nat) :
    ∀ s : QState α, QInv (2 ^ k) s → n = s.head - s.tail →
      (popN (2 ^ k) s n).2 = absQ (2 ^ k) s ∧
      QInv (2 ^ k) (popN (2 ^ k) s n).1 ∧
      (popN (2 ^ k) s n).1.tail = (popN (2 ^ k) s n).1.head := by
  induction n with
  | zero =>
    intro s hinv hn
    have hempty : s.tail = s.head := by
      have hle := hinv.1
      omega
    refine ⟨?_, by simpa [popN] using hinv, by simp [popN, hempty]⟩
    simp [popN, absQ, ← hn]
  | succ m ih =>
    intro s hinv hn
    have hlt : s.tail < s.head := by omega
    obtain ⟨hsome, hinv', habs, ht, hh⟩ := tryPop_ok k s hinv hlt
    have hm : m = (tryPop (2 ^ k) s).2.head - (tryPop (2 ^ k) s).2.tail := by
      rw [ht, hh]; omega
    obtain ⟨hr, hi, he⟩ := ih _ hinv' hm
    refine ⟨?_, by simpa [popN] using hi, by simpa [popN] using he⟩
    simp only [popN, hsome]
    rw [hr, habs]
    rfl

/-- C3: for every interleaved sequence of `tryPush`/`tryPop` calls on
the SPSC ring starting from its empty initial state, the successful
pops return exactly the successfully pushed items in push order: the
popped list followed by the still-pending items equals the list of
successfully pushed items, and in particular the popped list is always
a prefix of the pushed list. -/
theorem spscQueue_fifo {α : Type} (k : Nat) (d : α) (ops : List (QOp α)) :
    (runOps (2 ^ k) (qInit d) ops).2.2 ++ absQ (2 ^ k) (runOps (2 ^ k) (qInit d) ops).1 =
      (runOps (2 ^ k) (qInit d) ops).2.1 ∧
    (runOps (2 ^ k) (qInit d) ops).2.2 <+: (runOps (2 ^ k) (qInit d) ops).2.1 := by
  have h := (runOps_spec k ops (qInit d) (qInit_inv _ d)).2
  rw [absQ_qInit] at h
  simp only [List.nil_append] at h
  exact ⟨h, ⟨_, h⟩⟩

/-- C2 (counterexample): on the ring constructed with capacity
parameter 4, the claim's first conjunct fails: of the first 4 `tryPush`
calls from empty only 3 succeed — the 4th already returns `false`
(usable capacity is `CapacityPow2 - 1`). -/
theorem tryPush_capacity_counterexample :
    (pushAll (2 ^ 2) (qInit (0 : Nat)) [1, 2, 3, 4]).2 = [true, true, true, false] := by
  decide

/-- C2 (amended): on a ring with capacity parameter `N = 2^k`, the
first `N - 1` pushes from empty all succeed, the `N`-th `tryPush`
returns `false` and leaves the buffer, head and tail exactly unchanged,
and the subsequent `tryPop` calls drain exactly the `N - 1` stored
items (in order); one more pop then fails. -/
theorem tryPush_capacity_boundary {α : Type} (k : Nat) (d : α) (vs : List α) (v : α)
    (hlen : vs.length = 2 ^ k - 1) :
    (pushAll (2 ^ k) (qInit d) vs).2 = List.replicate (2 ^ k - 1) true ∧
    tryPush (2 ^ k) (pushAll (2 ^ k) (qInit d) vs).1 v =
      (false, (pushAll (2 ^ k) (qInit d) vs).1) ∧
    (popN (2 ^ k) (pushAll (2 ^ k) (qInit d) vs).1 (2 ^ k - 1)).2 = vs ∧
    (tryPop (2 ^ k) (popN (2 ^ k) (pushAll (2 ^ k) (qInit d) vs).1 (2 ^ k - 1)).1).1
      = none := by
  obtain ⟨hr, hinv, habs, ht, hh⟩ :=
    pushAll_ok k vs (qInit d) (qInit_inv _ d) (by simp [qInit, hlen])
  have habs' : absQ (2 ^ k) (pushAll (2 ^ k) (qInit d) vs).1 = vs := by
    rw [habs, absQ_qInit, List.nil_append]
  have hfull : (pushAll (2 ^ k) (qInit d) vs).1.head
      - (pushAll (2 ^ k) (qInit d) vs).1.tail = 2 ^ k - 1 := by
    rw [ht, hh]
    simp [qInit, hlen]
  have hcount : 2 ^ k - 1 = (pushAll (2 ^ k) (qInit d) vs).1.head
      - (pushAll (2 ^ k) (qInit d) vs).1.tail := hfull.symm
  obtain ⟨hdrain, hinv2, hempty⟩ := popN_drain k (2 ^ k - 1) _ hinv hcount
  refine ⟨by rw [hr, hlen], tryPush_full k _ v hinv hfull, by rw [hdrain, habs'], ?_⟩
  rw [tryPop_empty k _ hinv2 hempty]

/-- C2 (witness): the amended boundary theorem applied at capacity
parameter 4 with the three values 10, 20, 30. -/
theorem tryPush_capacity_boundary_witness :
    ([10, 20, 30] : List Nat).length = 2 ^ 2 - 1 ∧
    ((pushAll (2 ^ 2) (qInit 0) [10, 20, 30]).2 = List.replicate (2 ^ 2 - 1) true ∧
     tryPush (2 ^ 2) (pushAll (2 ^ 2) (qInit 0) [10, 20, 30]).1 40 =
       (false, (pushAll (2 ^ 2) (qInit 0) [10, 20, 30]).1) ∧
     (popN (2 ^ 2) (pushAll (2 ^ 2) (qInit 0) [10, 20, 30]).1 (2 ^ 2 - 1)).2 = [10, 20, 30] ∧
     (tryPop (2 ^ 2) (popN (2 ^ 2) (pushAll (2 ^ 2) (qInit 0) [10, 20, 30]).1 (2 ^ 2 - 1)).1).1
       = none) :=
  ⟨by decide, tryPush_capacity_boundary 2 0 [10, 20, 30] 40 (by decide)⟩

/-- Struct `AudioAnalysisSnapshot` (src/AudioAnalysisQueue.h lines 12-20): the
value produced per analysis window.  The struct has exactly two data
fields — `samplePosition` and `shortTimeEnergy`; it carries no
`beatDetected` flag (the header notes beat flags are reserved for
later phases).  `float` is modelled exactly over ℚ. -/
structure AudioAnalysisSnapshot where
  samplePosition : Nat
  shortTimeEnergy : ℚ
deriving DecidableEq

/-- Analysis state of `MilkDAWpAudioProcessor`
(src/PluginProcessor.cpp lines 708-724): the 43-entry energy history
ring, its index, the running average, the beat cooldown counter, the
running sample position and the capacity-64 analysis queue. -/
structure ProducerState where
  energyHistory : List ℚ
  energyIndex : Nat
  energyAverage : ℚ
  beatCooldown : Int
  runningSamplePos : Nat
  analysisQueue : QState AudioAnalysisSnapshot

/-- Initial producer state: `energyHistory.fill(0.0f)`, zero index,
zero average, `beatCooldown = 0`, `runningSamplePos = 0`, empty
queue (`AudioAnalysisQueue<64>`). -/
def producerInit : ProducerState :=
  ⟨List.replicate 43 0, 0, 0, 0, 0, qInit ⟨0, 0⟩⟩

/-- Short-time energy of a 1024-sample mono window
(src/PluginProcessor.cpp lines 684-690): mean of the squared samples. -/
def shortTimeEnergyOf (mono : List ℚ) : ℚ :=
  (mono.map (fun s => s * s)).sum / 1024

/-- Function `produceAnalysisSnapshot` (src/PluginProcessor.cpp lines 672-706),
state part, taking the window's short-time energy: build the snapshot
from `runningSamplePos` and the energy, update the circular history and
the running average (`energyAverage += (energy - old) / 43`), decrement
the cooldown when positive (it is never reset — the source only
"maintains the moving average internally for future beat detection,
no output yet"), and `tryPush` the snapshot into the capacity-64 queue,
dropping it when full. -/
def produceAnalysisSnapshot (st : ProducerState) (energy : ℚ) : ProducerState :=
  let snap : AudioAnalysisSnapshot := ⟨st.runningSamplePos, energy⟩
  let old := st.energyHistory.getD st.energyIndex 0
  { st with
    energyHistory := st.energyHistory.set st.energyIndex energy,
    energyIndex := (st.energyIndex + 1) % 43,
    energyAverage := st.energyAverage + (energy - old) / 43,
    beatCooldown := if 0 < st.beatCooldown then st.beatCooldown - 1 else st.beatCooldown,
    analysisQueue := (tryPush (2 ^ 6) st.analysisQueue snap).2 }

/-- Function `processBlock` (src/PluginProcessor.cpp lines 262-316) specialised
to one 1024-sample block: with `N = fftSize = 1024` the mono window
fills exactly once, `produceAnalysisSnapshot` runs, and afterwards
`runningSamplePos += N`. -/
def processBlock1024 (st : ProducerState) (mono : List ℚ) : ProducerState :=
  let st' := produceAnalysisSnapshot st (shortTimeEnergyOf mono)
  { st' with runningSamplePos := st'.runningSamplePos + 1024 }

/-- A sequence of 1024-sample blocks fed to the processor. -/
def runBlocks (st : ProducerState) (blocks : List (List ℚ)) : ProducerState :=
  blocks.foldl processBlock1024 st

/-- The claim's beat-trigger condition: the window's energy exceeds the
rolling history average times the 1.3 threshold while the cooldown
counter is zero. -/
def specBeatTrigger (energy avg : ℚ) (cooldown : Int) : Prop :=
  avg * (13 / 10) < energy ∧ cooldown = 0

/-- A 1024-sample window with short-time energy 0.01. -/
def window001 : List ℚ :=
  (16 / 5 : ℚ) :: List.replicate 1023 0

/-- A 1024-sample window with short-time energy 0.02. -/
def window002 : List ℚ :=
  (16 / 5 : ℚ) :: (16 / 5 : ℚ) :: List.replicate 1022 0

/-- A 1024-sample window with short-time energy 0.5. -/
def window05 : List ℚ :=
  (16 : ℚ) :: (16 : ℚ) :: List.replicate 1022 0

theorem shortTimeEnergyOf_window001 : shortTimeEnergyOf window001 = 1 / 100 := by
  simp only [shortTimeEnergyOf, window001, List.map_cons, List.map_replicate,
    List.sum_cons, List.sum_replicate, smul_zero, mul_zero]
  norm_num

theorem shortTimeEnergyOf_window002 : shortTimeEnergyOf window002 = 1 / 50 := by
  simp only [shortTimeEnergyOf, window002, List.map_cons, List.map_replicate,
    List.sum_cons, List.sum_replicate, smul_zero, mul_zero]
  norm_num

theorem shortTimeEnergyOf_window05 : shortTimeEnergyOf window05 = 1 / 2 := by
  simp only [shortTimeEnergyOf, window05, List.map_cons, List.map_replicate,
    List.sum_cons, List.sum_replicate, smul_zero, mul_zero]
  norm_num

/-- C1 (counterexample): feed the producer the three 1024-sample
windows with short-time energies 0.01, 0.02, 0.5.  At the third window
the claim's trigger condition holds — the energy 0.5 exceeds the
rolling history average times 1.3 and the cooldown is zero — yet the
producer performs no beat detection: the cooldown after the third
window is still 0, not reset to any positive debounce count, and the
emitted snapshots carry only `samplePosition` and `shortTimeEnergy`
(the snapshot struct has no `beatDetected` field at all), so no
emitted snapshot carries `beatDetected = true`. -/
theorem beatDetection_claim_counterexample :
    specBeatTrigger (shortTimeEnergyOf window05)
      (runBlocks producerInit [window001, window002]).energyAverage
      (runBlocks producerInit [window001, window002]).beatCooldown ∧
    ¬ 0 < (runBlocks producerInit [window001, window002, window05]).beatCooldown := by
  simp only [runBlocks, List.foldl_cons, List.foldl_nil, processBlock1024,
    shortTimeEnergyOf_window001, shortTimeEnergyOf_window002, shortTimeEnergyOf_window05,
    specBeatTrigger]
  refine ⟨⟨?_, ?_⟩, ?_⟩
  · simp only [produceAnalysisSnapshot, producerInit]
    norm_num
  · simp only [produceAnalysisSnapshot, producerInit]
    norm_num
  · simp only [produceAnalysisSnapshot, producerInit]
    norm_num

/-- C1 (amended): the analysis producer maintains the rolling energy
history and its running average and decrements the beat cooldown toward
zero, but it never raises a beat: the cooldown is never reset (it is
monotonically non-increasing across windows), and the emitted snapshots
consist solely of the sample position and the short-time energy.  For
the window sequence with energies {0.01, 0.02, 0.5} fed as 1024-sample
blocks, the three snapshots emitted into the analysis queue are exactly
(0, 0.01), (1024, 0.02), (2048, 0.5) — none carries any beat flag, and
the final cooldown is 0. -/
theorem producer_emits_plain_snapshots :
    (∀ (st : ProducerState) (e : ℚ),
      (produceAnalysisSnapshot st e).beatCooldown ≤ st.beatCooldown) ∧
    ((absQ (2 ^ 6) (runBlocks producerInit [window001, window002, window05]).analysisQueue).map
        (fun sn => (sn.samplePosition, sn.shortTimeEnergy)) =
      [(0, 1 / 100), (1024, 1 / 50), (2048, 1 / 2)] ∧
     (runBlocks producerInit [window001, window002, window05]).beatCooldown = 0) := by
  refine ⟨?_, ?_, ?_⟩
  · intro st e
    simp only [produceAnalysisSnapshot]
    split <;> omega
  · simp only [runBlocks, List.foldl_cons, List.foldl_nil, processBlock1024,
      shortTimeEnergyOf_window001, shortTimeEnergyOf_window002, shortTimeEnergyOf_window05]
    rfl
  · simp only [runBlocks, List.foldl_cons, List.foldl_nil, processBlock1024,
      shortTimeEnergyOf_window001, shortTimeEnergyOf_window002, shortTimeEnergyOf_window05]
    simp only [produceAnalysisSnapshot, producerInit]
    norm_num

/-- Signed 32-bit integer wraparound, used to model C++ `int`
arithmetic in `juce::String::hashCode`. -/
def int32Wrap (x : Int) : Int :=
  (x + 2 ^ 31) % 2 ^ 32 - 2 ^ 31

/-- Model of `juce::String::hashCode()`: fold `result = 31 * result + c` over
the string's code points, on wrapping 32-bit `int`. -/
def stringHashCode (s : String) : Int :=
  s.data.foldl (fun h c => int32Wrap (31 * h + c.toNat)) 0

/-- Function `SharedAssetCache::derivePaletteIndex` (src/SharedAssetCache.h
lines 89-95): hash the preset name; an empty-string hash maps to
palette 0, otherwise `std::abs(hash) % 5`. -/
def derivePaletteIndex (presetName : String) : Int :=
  let hash := stringHashCode presetName
  let palettes : Int := 5
  if hash = stringHashCode "" then 0 else (hash.natAbs : Int) % palettes

/-- The palette-index computation duplicated inside
`ProjectMContext::loadPreset` (src/VisualizationThread.h lines 75-80),
applied to `currentPresetName`. -/
def pmDerivedPaletteIndex (currentPresetName : String) : Int :=
  let hash := stringHashCode currentPresetName
  let palettes : Int := 5
  if hash = stringHashCode "" then 0 else (hash.natAbs : Int) % palettes

/-- Struct `SharedAssetCache::PresetMeta` (src/SharedAssetCache.h lines
19-24): display name, derived palette index, file timestamp
(`juce::Time` modelled as an integer) and refcount. -/
structure PresetMeta where
  name : String
  paletteIndex : Int
  lastModified : Int
  refCount : Int
deriving DecidableEq

/-- The cache map `juce::HashMap<juce::String, PresetMeta>` as a
function from key to optional value. -/
def Cache : Type := String → Option PresetMeta

def emptyCache : Cache := fun _ => none

/-- Model of `juce::HashMap::set`: insert or replace the value at a key. -/
def cacheSet (c : Cache) (p : String) (m : PresetMeta) : Cache :=
  fun q => if q = p then some m else c q

/-- Model of `juce::HashMap::remove`. -/
def cacheRemove (c : Cache) (p : String) : Cache :=
  fun q => if q = p then none else c q

/-- Function `SharedAssetCache::getPresetMeta` (lines 33-38): hit iff the key is
present. -/
def getPresetMeta (c : Cache) (p : String) : Option PresetMeta := c p

/-- Function `SharedAssetCache::upsertPresetMeta` (lines 41-45):
`map.set(fullPath, meta)` — the whole stored record is replaced by the
argument. -/
def upsertPresetMeta (c : Cache) (p : String) (m : PresetMeta) : Cache :=
  cacheSet c p m

/-- The filesystem facts `addRef`/`applyPendingPresetLoads` read at
call time (`juce::File` queries), as an explicit environment. -/
structure FileEnv where
  existsAsFile : String → Bool
  extLower : String → String
  fileNameNoExt : String → String
  lastModified : String → Int

/-- Function `SharedAssetCache::addRef` (lines 47-67): if absent, derive the
metadata from the path (name, timestamp, palette index) and insert with
refcount 1; if present, increment the refcount. -/
def addRef (env : FileEnv) (c : Cache) (p : String) : Cache :=
  match c p with
  | none =>
      let nm := env.fileNameNoExt p
      cacheSet c p ⟨nm, derivePaletteIndex nm, env.lastModified p, 1⟩
  | some m => cacheSet c p { m with refCount := m.refCount + 1 }

/-- Function `SharedAssetCache::release` (lines 69-87): if present, decrement
the refcount; remove the entry when it reaches ≤ 0, otherwise store the
decremented entry.  An absent key takes no action. -/
def release (c : Cache) (p : String) : Cache :=
  match c p with
  | none => c
  | some m =>
      if m.refCount - 1 ≤ 0 then cacheRemove c p
      else cacheSet c p { m with refCount := m.refCount - 1 }

/-- C6: starting from a path absent from the cache, two `addRef` calls
leave the entry with refcount ≥ 2 (in fact 2), one `release` decrements
to 1 without evicting (the lookup still hits), and the second `release`
evicts, after which the lookup misses. -/
theorem cache_refcount_lifecycle (env : FileEnv) (c : Cache) (p : String)
    (habsent : c p = none) :
    (∃ m, getPresetMeta (addRef env (addRef env c p) p) p = some m ∧ 2 ≤ m.refCount) ∧
    (∃ m, getPresetMeta (release (addRef env (addRef env c p) p) p) p = some m ∧
      m.refCount = 1) ∧
    getPresetMeta (release (release (addRef env (addRef env c p) p) p) p) p = none := by
  have h1 : addRef env c p
      = cacheSet c p ⟨env.fileNameNoExt p, derivePaletteIndex (env.fileNameNoExt p),
          env.lastModified p, 1⟩ := by
    rw [addRef, habsent]
  have hget1 : (addRef env c p) p
      = some ⟨env.fileNameNoExt p, derivePaletteIndex (env.fileNameNoExt p),
          env.lastModified p, 1⟩ := by
    rw [h1, cacheSet, if_pos rfl]
  have h2 : addRef env (addRef env c p) p
      = cacheSet (addRef env c p) p ⟨env.fileNameNoExt p,
          derivePaletteIndex (env.fileNameNoExt p), env.lastModified p, 2⟩ := by
    rw [addRef, hget1]
    rfl
  have hget2 : (addRef env (addRef env c p) p) p
      = some ⟨env.fileNameNoExt p, derivePaletteIndex (env.fileNameNoExt p),
          env.lastModified p, 2⟩ := by
    rw [h2, cacheSet, if_pos rfl]
  have h3 : release (addRef env (addRef env c p) p) p
      = cacheSet (addRef env (addRef env c p) p) p ⟨env.fileNameNoExt p,
          derivePaletteIndex (env.fileNameNoExt p), env.lastModified p, 1⟩ := by
    rw [release, hget2]
    norm_num
  have hget3 : (release (addRef env (addRef env c p) p) p) p
      = some ⟨env.fileNameNoExt p, derivePaletteIndex (env.fileNameNoExt p),
          env.lastModified p, 1⟩ := by
    rw [h3, cacheSet, if_pos rfl]
  have h4 : release (release (addRef env (addRef env c p) p) p) p
      = cacheRemove (release (addRef env (addRef env c p) p) p) p := by
    rw [release, hget3]
    norm_num
  refine ⟨⟨_, hget2, by norm_num⟩, ⟨_, hget3, rfl⟩, ?_⟩
  rw [getPresetMeta, h4, cacheRemove, if_pos rfl]

/-- C6 (witness): the lifecycle theorem at a concrete environment, the
empty cache and the path "a". -/
theorem cache_refcount_lifecycle_witness :
    emptyCache "a" = none ∧
    ((∃ m, getPresetMeta
        (addRef ⟨fun _ => true, fun _ => ".milk", fun s => s, fun _ => 0⟩
          (addRef ⟨fun _ => true, fun _ => ".milk", fun s => s, fun _ => 0⟩ emptyCache "a") "a")
        "a" = some m ∧ 2 ≤ m.refCount) ∧
     (∃ m, getPresetMeta
        (release (addRef ⟨fun _ => true, fun _ => ".milk", fun s => s, fun _ => 0⟩
          (addRef ⟨fun _ => true, fun _ => ".milk", fun s => s, fun _ => 0⟩ emptyCache "a") "a") "a")
        "a" = some m ∧ m.refCount = 1) ∧
     getPresetMeta
        (release (release (addRef ⟨fun _ => true, fun _ => ".milk", fun s => s, fun _ => 0⟩
          (addRef ⟨fun _ => true, fun _ => ".milk", fun s => s, fun _ => 0⟩ emptyCache "a") "a") "a") "a")
        "a" = none) :=
  ⟨rfl, cache_refcount_lifecycle ⟨fun _ => true, fun _ => ".milk", fun s => s, fun _ => 0⟩
    emptyCache "a" rfl⟩

/-- C10: releasing a path with no cache entry is a no-op — the cache
function is left literally unchanged, so no entry is created, no other
entry changes and no refcount anywhere is touched. -/
theorem release_absent_noop (c : Cache) (p : String) (h : c p = none) :
    release c p = c := by
  rw [release, h]

/-- C10 (witness): releasing "x" on the empty cache. -/
theorem release_absent_noop_witness :
    emptyCache "x" = none ∧ release emptyCache "x" = emptyCache :=
  ⟨rfl, release_absent_noop emptyCache "x" rfl⟩

/-- C7 (counterexample): `upsertPresetMeta` does not preserve the
stored refcount.  A cache entry at "p" with refcount 2, upserted with a
metadata record whose `refCount` field is 0, afterwards has refcount 0
rather than 2: `map.set` stores the whole argument record, `refCount`
field included. -/
theorem upsert_refcount_counterexample :
    (((upsertPresetMeta (cacheSet emptyCache "p" ⟨"old", 0, 0, 2⟩) "p"
        ⟨"new", 1, 5, 0⟩) "p").map (fun m => m.refCount)) = some 0 ∧
    (((cacheSet emptyCache "p" ⟨"old", 0, 0, 2⟩) "p").map (fun m => m.refCount)) = some 2 :=
  ⟨rfl, rfl⟩

/-- C7 (amended): `upsertPresetMeta(path, meta)` replaces the whole
stored record at `path` with `meta` — content and `refCount` field
alike — and leaves every other key unchanged.  The refcount is
preserved only when the caller passes the existing refcount back in. -/
theorem upsert_replaces_whole_entry (c : Cache) (p : String) (m : PresetMeta) :
    (upsertPresetMeta c p m) p = some m ∧
    ∀ q, q ≠ p → (upsertPresetMeta c p m) q = c q := by
  refine ⟨?_, ?_⟩
  · rw [upsertPresetMeta, cacheSet, if_pos rfl]
  · intro q hq
    rw [upsertPresetMeta, cacheSet, if_neg hq]

/-- C7 (witness): the amended theorem at the empty cache, path "a",
queried also at the unrelated key "b". -/
theorem upsert_replaces_whole_entry_witness :
    (upsertPresetMeta emptyCache "a" ⟨"n", 1, 2, 3⟩) "a" = some ⟨"n", 1, 2, 3⟩ ∧
    ("b" : String) ≠ "a" ∧
    (upsertPresetMeta emptyCache "a" ⟨"n", 1, 2, 3⟩) "b" = emptyCache "b" :=
  ⟨(upsert_replaces_whole_entry emptyCache "a" ⟨"n", 1, 2, 3⟩).1, by decide,
    (upsert_replaces_whole_entry emptyCache "a" ⟨"n", 1, 2, 3⟩).2 "b" (by decide)⟩

/-- C9: the palette index is a pure function of the preset name.  The
duplicated formula in `ProjectMContext::loadPreset` agrees with
`SharedAssetCache::derivePaletteIndex` on every name, and the palette
index that `addRef` stores for a freshly inserted path is exactly
`derivePaletteIndex` of the derived file name — so any two insertions
whose paths derive the same name receive the same index, regardless of
the cache states, environments or call order involved. -/
theorem palette_index_pure (env1 env2 : FileEnv) (c1 c2 : Cache) (p1 p2 : String)
    (h1 : c1 p1 = none) (h2 : c2 p2 = none)
    (hname : env1.fileNameNoExt p1 = env2.fileNameNoExt p2) :
    (∀ name : String, pmDerivedPaletteIndex name = derivePaletteIndex name) ∧
    ∃ m1 m2, (addRef env1 c1 p1) p1 = some m1 ∧ (addRef env2 c2 p2) p2 = some m2 ∧
      m1.paletteIndex = derivePaletteIndex (env1.fileNameNoExt p1) ∧
      m2.paletteIndex = m1.paletteIndex := by
  have hga : (addRef env1 c1 p1) p1
      = some ⟨env1.fileNameNoExt p1, derivePaletteIndex (env1.fileNameNoExt p1),
          env1.lastModified p1, 1⟩ := by
    rw [addRef, h1]
    show cacheSet _ _ _ _ = _
    rw [cacheSet, if_pos rfl]
  have hgb : (addRef env2 c2 p2) p2
      = some ⟨env2.fileNameNoExt p2, derivePaletteIndex (env2.fileNameNoExt p2),
          env2.lastModified p2, 1⟩ := by
    rw [addRef, h2]
    show cacheSet _ _ _ _ = _
    rw [cacheSet, if_pos rfl]
  refine ⟨fun name => rfl,
    ⟨⟨env1.fileNameNoExt p1, derivePaletteIndex (env1.fileNameNoExt p1),
        env1.lastModified p1, 1⟩,
     ⟨env2.fileNameNoExt p2, derivePaletteIndex (env2.fileNameNoExt p2),
        env2.lastModified p2, 1⟩, hga, hgb, rfl, ?_⟩⟩
  show derivePaletteIndex (env2.fileNameNoExt p2) = derivePaletteIndex (env1.fileNameNoExt p1)
  rw [hname]

/-- C9 (witness): two different environments and cache states whose
paths derive the same name "song" receive the same palette index. -/
theorem palette_index_pure_witness :
    emptyCache "/a/song.milk" = none ∧
    (cacheSet emptyCache "other" ⟨"o", 0, 0, 1⟩) "/b/song.milk" = none ∧
    (FileEnv.mk (fun _ => true) (fun _ => ".milk") (fun _ => "song") (fun _ => 7)).fileNameNoExt
        "/a/song.milk"
      = (FileEnv.mk (fun _ => false) (fun _ => ".txt") (fun _ => "song") (fun _ => 9)).fileNameNoExt
        "/b/song.milk" ∧
    ((∀ name : String, pmDerivedPaletteIndex name = derivePaletteIndex name) ∧
     ∃ m1 m2,
       (addRef (FileEnv.mk (fun _ => true) (fun _ => ".milk") (fun _ => "song") (fun _ => 7))
         emptyCache "/a/song.milk") "/a/song.milk" = some m1 ∧
       (addRef (FileEnv.mk (fun _ => false) (fun _ => ".txt") (fun _ => "song") (fun _ => 9))
         (cacheSet emptyCache "other" ⟨"o", 0, 0, 1⟩) "/b/song.milk") "/b/song.milk" = some m2 ∧
       m1.paletteIndex = derivePaletteIndex
         ((FileEnv.mk (fun _ => true) (fun _ => ".milk") (fun _ => "song") (fun _ => 7)).fileNameNoExt
           "/a/song.milk") ∧
       m2.paletteIndex = m1.paletteIndex) :=
  ⟨rfl, by decide, rfl,
    palette_index_pure
      (FileEnv.mk (fun _ => true) (fun _ => ".milk") (fun _ => "song") (fun _ => 7))
      (FileEnv.mk (fun _ => false) (fun _ => ".txt") (fun _ => "song") (fun _ => 9))
      emptyCache (cacheSet emptyCache "other" ⟨"o", 0, 0, 1⟩)
      "/a/song.milk" "/b/song.milk" rfl (by decide) rfl⟩

/-- Model of `juce::jlimit(lower, upper, value)`. -/
def jlimit (lo hi v : ℚ) : ℚ :=
  if v < lo then lo else if hi < v then hi else v

/-- Model of `juce::jmax(a, b)` = `a < b ? b : a`. -/
def jmax (a b : ℚ) : ℚ := if a < b then b else a

/-- Model of `juce::jmin(a, b)` = `b < a ? b : a`. -/
def jmin (a b : ℚ) : ℚ := if b < a then b else a

/-- Controller `AdaptiveQualityController` state (src/AdaptiveQuality.h lines
39-154): thresholds, the raw `manualMode` int (0 = Auto, 1 = Low,
2 = Medium, 3 = High) and the persistent `currentScale`.  `double`
arithmetic is modelled exactly over ℚ. -/
structure AdaptiveQualityController where
  targetFps : ℚ
  fpsLow : ℚ
  fpsHigh : ℚ
  cpuHigh : ℚ
  cpuRelax : ℚ
  manualMode : Int
  currentScale : ℚ

/-- Member initialisers: target 60, low 45, high 58, cpuHigh 80,
cpuRelax 50, Auto mode, scale 1.0. -/
def aqInit : AdaptiveQualityController := ⟨60, 45, 58, 80, 50, 0, 1⟩

def setTargetFps (c : AdaptiveQualityController) (fps : ℚ) : AdaptiveQualityController :=
  { c with targetFps := jlimit 1 240 fps }

def setFpsThresholds (c : AdaptiveQualityController) (lowFps highFps : ℚ) :
    AdaptiveQualityController :=
  { c with fpsLow := lowFps, fpsHigh := jmax highFps (lowFps + 1) }

def setCpuThresholds (c : AdaptiveQualityController) (highPct relaxPct : ℚ) :
    AdaptiveQualityController :=
  { c with cpuHigh := jlimit 0 100 highPct, cpuRelax := jlimit 0 100 relaxPct }

def setQualityMode (c : AdaptiveQualityController) (m : Int) : AdaptiveQualityController :=
  { c with manualMode := m }

/-- Struct `AdaptiveQualityController::Decision` (minus the diagnostic reason
string): suggested scale plus the derived profile flags. -/
structure Decision where
  suggestedScale : ℚ
  highDetailEffects : Bool
  particlesEnabled : Bool

/-- Method `AdaptiveQualityController::evaluate` (src/AdaptiveQuality.h lines
75-141): manual override returns its fixed scale and snaps
`currentScale` to it; Auto mode starts from `currentScale`, steps down
by 0.1 (floored at 0.5) on low FPS or high CPU, steps up by 0.1
(capped at 1.0) on good FPS and relaxed CPU, otherwise holds — and
stores the result back into `currentScale`. -/
def evaluate (c : AdaptiveQualityController) (fpsEma frameMsEma cpuPct : ℚ) :
    Decision × AdaptiveQualityController :=
  if c.manualMode ≠ 0 then
    let scale : ℚ :=
      if c.manualMode = 1 then 1 / 2
      else if c.manualMode = 2 then 3 / 4
      else if c.manualMode = 3 then 1
      else 1
    (⟨scale, decide ((9 : ℚ) / 10 ≤ scale), decide ((6 : ℚ) / 10 ≤ scale)⟩,
      { c with currentScale := scale })
  else
    let stepDown :=
      (0 < fpsEma ∧ fpsEma < jmin c.fpsLow (85 / 100 * c.targetFps)) ∨ c.cpuHigh ≤ cpuPct
    let stepUp :=
      jmax c.fpsHigh (95 / 100 * c.targetFps) ≤ fpsEma ∧ cpuPct ≤ c.cpuRelax
    let scale :=
      if stepDown then jmax (1 / 2) (c.currentScale - 1 / 10)
      else if stepUp then jmin 1 (c.currentScale + 1 / 10)
      else c.currentScale
    (⟨scale, decide ((9 : ℚ) / 10 ≤ scale), decide ((6 : ℚ) / 10 ≤ scale)⟩,
      { c with currentScale := scale })

/-- An external interaction with the controller: an `evaluate` call or
one of the configuration setters. -/
inductive AqEvent where
  | evalCall (fpsEma frameMsEma cpuPct : ℚ)
  | modeSet (m : Int)
  | fpsThreshSet (lowFps highFps : ℚ)
  | cpuThreshSet (highPct relaxPct : ℚ)
  | targetSet (fps : ℚ)

def aqStep (c : AdaptiveQualityController) : AqEvent → AdaptiveQualityController
  | AqEvent.evalCall f m p => (evaluate c f m p).2
  | AqEvent.modeSet m => setQualityMode c m
  | AqEvent.fpsThreshSet l h => setFpsThresholds c l h
  | AqEvent.cpuThreshSet h r => setCpuThresholds c h r
  | AqEvent.targetSet f => setTargetFps c f

def aqRun (c : AdaptiveQualityController) (evs : List AqEvent) : AdaptiveQualityController :=
  evs.foldl aqStep c

/-- The persistent scale stays inside [0.5, 1.0]. -/
def ScaleInv (c : AdaptiveQualityController) : Prop :=
  1 / 2 ≤ c.currentScale ∧ c.currentScale ≤ 1

theorem evaluate_preserves_scaleInv (c : AdaptiveQualityController) (f m p : ℚ)
    (h : ScaleInv c) : ScaleInv (evaluate c f m p).2 := by
  obtain ⟨h1, h2⟩ := h
  rw [evaluate]
  split
  · constructor <;> dsimp only <;> split_ifs <;> norm_num
  · constructor <;> dsimp only <;> split_ifs <;>
      (try simp only [jmax, jmin]) <;> (try split_ifs) <;> linarith

theorem aqStep_preserves_scaleInv (c : AdaptiveQualityController) (e : AqEvent)
    (h : ScaleInv c) : ScaleInv (aqStep c e) := by
  cases e with
  | evalCall f m p => exact evaluate_preserves_scaleInv c f m p h
  | modeSet m => exact h
  | fpsThreshSet l hi => exact h
  | cpuThreshSet hi r => exact h
  | targetSet f => exact h

theorem aqRun_preserves_scaleInv (evs : List AqEvent) :
    ∀ c : AdaptiveQualityController, ScaleInv c → ScaleInv (aqRun c evs) := by
  induction evs with
  | nil => intro c h; exact h
  | cons e rest ih =>
    intro c h
    exact ih (aqStep c e) (aqStep_preserves_scaleInv c e h)

/-- C8: for every sequence of `evaluate` calls and mode/threshold
changes from the freshly constructed controller, the persistent
`currentScale` stays in [0.5, 1.0]; and every Auto-mode `evaluate`
call, whatever its metric inputs, returns a scale that differs from the
previous `currentScale` by at most 0.1, lies in [0.5, 1.0], and becomes
the new `currentScale`. -/
theorem adaptive_quality_scale_bounds :
    (∀ evs : List AqEvent, ScaleInv (aqRun aqInit evs)) ∧
    (∀ (c : AdaptiveQualityController) (f m p : ℚ), ScaleInv c → c.manualMode = 0 →
      |(evaluate c f m p).1.suggestedScale - c.currentScale| ≤ 1 / 10 ∧
      1 / 2 ≤ (evaluate c f m p).1.suggestedScale ∧
      (evaluate c f m p).1.suggestedScale ≤ 1 ∧
      (evaluate c f m p).2.currentScale = (evaluate c f m p).1.suggestedScale) := by
  constructor
  · intro evs
    exact aqRun_preserves_scaleInv evs aqInit
      ⟨by norm_num [aqInit], by norm_num [aqInit]⟩
  · intro c f m p h hm
    obtain ⟨h1, h2⟩ := h
    have hmanual : ¬ c.manualMode ≠ 0 := by simp [hm]
    rw [evaluate, if_neg hmanual]
    dsimp only
    refine ⟨?_, ?_, ?_, rfl⟩
    · split_ifs <;> (try simp only [jmax, jmin]) <;> (try split_ifs) <;>
        (rw [abs_le]; constructor <;> linarith)
    · split_ifs <;> (try simp only [jmax, jmin]) <;> (try split_ifs) <;> linarith
    · split_ifs <;> (try simp only [jmax, jmin]) <;> (try split_ifs) <;> linarith

/-- C8 (witness): the step-bound part of the theorem at the initial
controller (Auto mode, scale 1.0) with metrics fps = 30, frame time
10 ms, CPU 90 %. -/
theorem adaptive_quality_scale_bounds_witness :
    (ScaleInv aqInit ∧ aqInit.manualMode = 0) ∧
    (|(evaluate aqInit 30 10 90).1.suggestedScale - aqInit.currentScale| ≤ 1 / 10 ∧
     1 / 2 ≤ (evaluate aqInit 30 10 90).1.suggestedScale ∧
     (evaluate aqInit 30 10 90).1.suggestedScale ≤ 1 ∧
     (evaluate aqInit 30 10 90).2.currentScale = (evaluate aqInit 30 10 90).1.suggestedScale) :=
  ⟨⟨⟨by norm_num [aqInit], by norm_num [aqInit]⟩, rfl⟩,
    adaptive_quality_scale_bounds.2 aqInit 30 10 90
      ⟨by norm_num [aqInit], by norm_num [aqInit]⟩ rfl⟩

/-- Struct `ParameterChange` (src/MessageThreadBridge.h lines 12-16):
parameter id, value (float modelled over ℚ) and sequence number
(`uint64_t` modelled as `Nat`; the source default-initialises it
to 0). -/
structure ParameterChange where
  paramID : String
  value : ℚ
  sequence : Nat
deriving DecidableEq

/-- Bridge `MessageThreadBridge` state (src/MessageThreadBridge.h lines
22-55): the capacity-64 audio→message SPSC channel and the `nextSeq`
counter. -/
structure MessageThreadBridge where
  audioToMessage : QState ParameterChange
  nextSeq : Nat

def bridgeInit : MessageThreadBridge := ⟨qInit ⟨"", 0, 0⟩, 0⟩

/-- Method `postFromAudioToMessage` (lines 30-34): build the change carrying
the current `nextSeq` value, increment the counter (`fetch_add`
happens whether or not the push then succeeds) and `tryPush`. -/
def postFromAudioToMessage (b : MessageThreadBridge) (id : String) (value : ℚ) :
    Bool × MessageThreadBridge :=
  let pc : ParameterChange := ⟨id, value, b.nextSeq⟩
  let r := tryPush (2 ^ 6) b.audioToMessage pc
  (r.1, ⟨r.2, b.nextSeq + 1⟩)

/-- One `tryPop` step of `drainOnMessageThread` (lines 38-48); the
listeners receive the popped item and do not touch the channel. -/
def bridgePop (b : MessageThreadBridge) : Option ParameterChange × MessageThreadBridge :=
  let r := tryPop (2 ^ 6) b.audioToMessage
  (r.1, ⟨r.2, b.nextSeq⟩)

/-- Method `VisualizationThread::postParameterChange` (src/VisualizationThread.h
lines 220-223): pushes `ParameterChange{ id, value, 0 }` into the
capacity-64 `paramChanges` channel — the sequence field is the literal
0, not a counter. -/
def postParameterChange (q : QState ParameterChange) (id : String) (value : ℚ) :
    Bool × QState ParameterChange :=
  tryPush (2 ^ 6) q ⟨id, value, 0⟩

/-- Sequence-number invariant of the bridge channel: the pending
changes carry strictly increasing sequences, all below `nextSeq`. -/
def BridgeSeqInv (b : MessageThreadBridge) : Prop :=
  QInv (2 ^ 6) b.audioToMessage ∧
  List.Pairwise (· < ·) ((absQ (2 ^ 6) b.audioToMessage).map ParameterChange.sequence) ∧
  ∀ pc ∈ absQ (2 ^ 6) b.audioToMessage, pc.sequence < b.nextSeq

/-- C5 (counterexample): two consecutive
`VisualizationThread::postParameterChange` calls from the empty channel
store two changes whose `sequence` fields are both 0 — not strictly
increasing, contradicting the claim for this `ParameterChange`
channel. -/
theorem viz_parameter_sequence_counterexample :
    ((absQ (2 ^ 6) (postParameterChange
        (postParameterChange (qInit ⟨"", 0, 0⟩) "beatSensitivity" 1).2
        "shuffle" 1).2).map ParameterChange.sequence) = [0, 0] ∧
    ¬ List.Pairwise (fun a b => a < b) [(0 : Nat), 0] := by
  refine ⟨rfl, ?_⟩
  decide

/-- C5 (amended): in the `MessageThreadBridge` channel the sequence is
assigned at enqueue from the monotonic `nextSeq` counter and is
strictly increasing across the pending items — an invariant that holds
initially and is preserved by every post and every drain pop.  In the
`VisualizationThread` parameter channel, by contrast, every enqueued
change carries the constant sequence 0. -/
theorem parameter_change_sequences :
    BridgeSeqInv bridgeInit ∧
    (∀ (b : MessageThreadBridge) (id : String) (v : ℚ), BridgeSeqInv b →
      BridgeSeqInv (postFromAudioToMessage b id v).2) ∧
    (∀ b : MessageThreadBridge, BridgeSeqInv b → BridgeSeqInv (bridgePop b).2) ∧
    (∀ (q : QState ParameterChange) (id : String) (v : ℚ), QInv (2 ^ 6) q →
      ∀ pc ∈ absQ (2 ^ 6) (postParameterChange q id v).2,
        pc ∈ absQ (2 ^ 6) q ∨ pc.sequence = 0) := by
  refine ⟨⟨qInit_inv _ _, ?_, ?_⟩, ?_, ?_, ?_⟩
  · simp only [bridgeInit]
    rw [absQ_qInit]
    exact List.Pairwise.nil
  · simp only [bridgeInit]
    rw [absQ_qInit]
    intro pc hpc
    cases hpc
  · rintro b id v ⟨hq, hpw, hbound⟩
    by_cases hfull : b.audioToMessage.head - b.audioToMessage.tail = 2 ^ 6 - 1
    · have hp := tryPush_full 6 b.audioToMessage (⟨id, v, b.nextSeq⟩ : ParameterChange) hq hfull
      refine ⟨?_, ?_, ?_⟩ <;> simp only [postFromAudioToMessage, hp]
      · exact hq
      · exact hpw
      · intro pc hpc
        exact Nat.lt_succ_of_lt (hbound pc hpc)
    · have hroom : b.audioToMessage.head - b.audioToMessage.tail < 2 ^ 6 - 1 :=
        lt_of_le_of_ne hq.2 hfull
      obtain ⟨-, hinv', habs, -, -⟩ :=
        tryPush_ok 6 b.audioToMessage (⟨id, v, b.nextSeq⟩ : ParameterChange) hq hroom
      refine ⟨?_, ?_, ?_⟩ <;> simp only [postFromAudioToMessage]
      · exact hinv'
      · rw [habs, List.map_append, List.pairwise_append]
        refine ⟨hpw, List.pairwise_singleton _ _, ?_⟩
        intro a ha b' hb'
        rw [List.mem_map] at ha
        obtain ⟨pc, hpc, rfl⟩ := ha
        simp only [List.map_cons, List.map_nil, List.mem_singleton] at hb'
        rw [hb']
        exact hbound pc hpc
      · intro pc hpc
        rw [habs, List.mem_append] at hpc
        rcases hpc with h | h
        · exact Nat.lt_succ_of_lt (hbound pc h)
        · rw [List.mem_singleton] at h
          rw [h]
          exact Nat.lt_succ_self _
  · rintro b ⟨hq, hpw, hbound⟩
    by_cases hempty : b.audioToMessage.tail = b.audioToMessage.head
    · have hp := tryPop_empty 6 b.audioToMessage hq hempty
      refine ⟨?_, ?_, ?_⟩ <;> simp only [bridgePop, hp]
      · exact hq
      · exact hpw
      · exact hbound
    · have hlt : b.audioToMessage.tail < b.audioToMessage.head :=
        lt_of_le_of_ne hq.1 hempty
      obtain ⟨-, hinv', habs, -, -⟩ := tryPop_ok 6 b.audioToMessage hq hlt
      refine ⟨?_, ?_, ?_⟩ <;> simp only [bridgePop]
      · exact hinv'
      · have h2 := hpw
        rw [habs, List.map_cons] at h2
        exact (List.pairwise_cons.mp h2).2
      · intro pc hpc
        refine hbound pc ?_
        rw [habs]
        exact List.mem_cons_of_mem _ hpc
  · rintro q id v hq pc hpc
    by_cases hfull : q.head - q.tail = 2 ^ 6 - 1
    · have hp := tryPush_full 6 q (⟨id, v, 0⟩ : ParameterChange) hq hfull
      left
      rw [postParameterChange, hp] at hpc
      exact hpc
    · have hroom : q.head - q.tail < 2 ^ 6 - 1 := lt_of_le_of_ne hq.2 hfull
      obtain ⟨-, -, habs, -, -⟩ := tryPush_ok 6 q (⟨id, v, 0⟩ : ParameterChange) hq hroom
      rw [postParameterChange, habs, List.mem_append] at hpc
      rcases hpc with h | h
      · exact Or.inl h
      · rw [List.mem_singleton] at h
        right
        rw [h]

/-- C5 (witness): the amended theorem applied at the initial bridge,
one concrete post, and one concrete visualization-channel push. -/
theorem parameter_change_sequences_witness :
    BridgeSeqInv bridgeInit ∧
    BridgeSeqInv (postFromAudioToMessage bridgeInit "beatSensitivity" (5 / 4)).2 ∧
    (QInv (2 ^ 6) (qInit (⟨"", 0, 0⟩ : ParameterChange)) ∧
     (⟨"shuffle", 1, 0⟩ : ParameterChange) ∈
       absQ (2 ^ 6) (postParameterChange (qInit ⟨"", 0, 0⟩) "shuffle" 1).2) ∧
    ((⟨"shuffle", 1, 0⟩ : ParameterChange) ∈
        absQ (2 ^ 6) (qInit (⟨"", 0, 0⟩ : ParameterChange)) ∨
     (⟨"shuffle", 1, 0⟩ : ParameterChange).sequence = 0) := by
  have h1 := parameter_change_sequences.1
  have hmem : (⟨"shuffle", 1, 0⟩ : ParameterChange) ∈
      absQ (2 ^ 6) (postParameterChange (qInit ⟨"", 0, 0⟩) "shuffle" 1).2 := by
    show (⟨"shuffle", 1, 0⟩ : ParameterChange) ∈ [(⟨"shuffle", 1, 0⟩ : ParameterChange)]
    exact List.mem_singleton_self _
  exact ⟨h1, parameter_change_sequences.2.1 bridgeInit "beatSensitivity" (5 / 4) h1,
    ⟨qInit_inv _ _, hmem⟩,
    parameter_change_sequences.2.2.2 (qInit ⟨"", 0, 0⟩) "shuffle" 1 (qInit_inv _ _)
      ⟨"shuffle", 1, 0⟩ hmem⟩

/-- The visualization-thread state touched by
`applyPendingPresetLoads` (src/VisualizationThread.h): the projectM
stub's preset name and palette, the shared cache, the last applied
preset path and the hit/miss counters. -/
structure VizState where
  pmCurrentPresetName : String
  pmPaletteIndex : Int
  cache : Cache
  lastAppliedPreset : String
  cacheHits : Nat
  cacheMisses : Nat

/-- Method `ProjectMContext::loadPreset` (src/VisualizationThread.h lines
61-83): fail when the file does not exist or the lowercased extension
is not ".milk"; otherwise set `currentPresetName` to the file name
without extension and derive the palette index from it. -/
def pmLoadPreset (env : FileEnv) (st : VizState) (path : String) : Bool × VizState :=
  if ¬ env.existsAsFile path then (false, st)
  else if env.extLower path ≠ ".milk" then (false, st)
  else
    let nm := env.fileNameNoExt path
    (true, { st with pmCurrentPresetName := nm, pmPaletteIndex := pmDerivedPaletteIndex nm })

/-- Refcount tail of `applyPendingPresetLoads` (lines 315-320):
`addRef` the new path, `release` the previously applied one when
non-empty and different, then record the path as last applied. -/
def applyPresetTail (env : FileEnv) (st : VizState) (p : String) : VizState :=
  let c1 := addRef env st.cache p
  let c2 :=
    if st.lastAppliedPreset ≠ "" ∧ st.lastAppliedPreset ≠ p then release c1 st.lastAppliedPreset
    else c1
  { st with cache := c2, lastAppliedPreset := p }

/-- Body of `applyPendingPresetLoads` after the drain (lines 277-320),
for one selected path: look the path up in the shared cache, validate
the hit by timestamp; on a fresh hit apply the cached name and palette
and count a hit; otherwise recompute through `pmLoadPreset` (returning
unchanged on load failure), upsert the recomputed metadata (carrying
over the local `meta` record's refcount: 0 for a miss, the cached value
for a stale hit) and count a miss; finally run the refcount tail. -/
def applyOnePendingPreset (env : FileEnv) (st : VizState) (p : String) : VizState :=
  let metaOpt := getPresetMeta st.cache p
  let meta0 := metaOpt.getD ⟨"", 0, 0, 0⟩
  let ts := env.lastModified p
  if metaOpt.isSome ∧ ts = meta0.lastModified then
    applyPresetTail env
      { st with
        pmCurrentPresetName := meta0.name
        pmPaletteIndex := meta0.paletteIndex
        cacheHits := st.cacheHits + 1 } p
  else
    let r := pmLoadPreset env st p
    if r.1 then
      let st1 := r.2
      let meta1 : PresetMeta := ⟨st1.pmCurrentPresetName, st1.pmPaletteIndex, ts, meta0.refCount⟩
      applyPresetTail env
        { st1 with
          cache := upsertPresetMeta st1.cache p meta1
          cacheMisses := st1.cacheMisses + 1 } p
    else st

/-- The drain loop of `applyPendingPresetLoads` (lines 269-273): pop
everything, remembering the last non-empty path (the local
`pendingPath` starts out as the empty string). -/
def latestNonEmpty (pending : List String) : String :=
  pending.foldl (fun acc t => if t ≠ "" then t else acc) ""

/-- Method `applyPendingPresetLoads` (lines 265-321) on the FIFO contents of
the preset-load channel: select the last non-empty pending path,
return unchanged when there is none or it equals the last applied
preset, otherwise apply that single path. -/
def applyPendingPresetLoads (env : FileEnv) (st : VizState) (pending : List String) : VizState :=
  let p := latestNonEmpty pending
  if p = "" then st
  else if p = st.lastAppliedPreset then st
  else applyOnePendingPreset env st p

theorem latestNonEmpty_foldl (pending : List String) :
    ∀ a : String, pending.foldl (fun acc t => if t ≠ "" then t else acc) a
      = (pending.filter (fun t => t ≠ "")).getLastD a := by
  induction pending with
  | nil => intro a; rfl
  | cons t rest ih =>
    intro a
    simp only [List.foldl_cons, List.filter_cons]
    by_cases ht : t = ""
    · rw [if_neg (by simp [ht])]
      rw [if_neg (by simp [ht])]
      exact ih a
    · rw [if_pos (by simp [ht])]
      rw [if_pos (by simp [ht])]
      rw [List.getLastD_cons]
      exact ih t

/-- C4 (counterexample): with pending requests ["a", ""] the most
recently enqueued request is the empty string, yet the worker acts on
the older request "a" (the drain remembers only non-empty paths): the
state after the drain has "a" as last applied preset, so an older
pending request was individually applied, contradicting the claim that
only the most recently enqueued request is ever acted on. -/
theorem preset_coalescing_counterexample :
    latestNonEmpty ["a", ""] = "a" ∧
    (applyPendingPresetLoads ⟨fun _ => true, fun _ => ".milk", fun s => s, fun _ => 0⟩
      ⟨"", 0, emptyCache, "", 0, 0⟩ ["a", ""]).lastAppliedPreset = "a" :=
  ⟨rfl, rfl⟩

/-- C4 (amended): when the worker drains the preset-load channel, only
the most recently enqueued NON-EMPTY, not-yet-applied request is acted
on: draining any pending list has exactly the effect of draining just
its last non-empty path (older and empty requests are discarded without
being individually applied), and when that path equals the last applied
preset path the state is returned entirely unchanged — no load is
performed at all. -/
theorem preset_load_coalescing (env : FileEnv) (st : VizState) (pending : List String) :
    applyPendingPresetLoads env st pending
      = applyPendingPresetLoads env st [latestNonEmpty pending] ∧
    latestNonEmpty pending = (pending.filter (fun t => t ≠ "")).getLastD "" ∧
    (latestNonEmpty pending = st.lastAppliedPreset →
      applyPendingPresetLoads env st pending = st) := by
  refine ⟨?_, latestNonEmpty_foldl pending "", ?_⟩
  · have hsing : ∀ x : String, latestNonEmpty [x] = x := by
      intro x
      simp only [latestNonEmpty, List.foldl_cons, List.foldl_nil]
      by_cases hx : x = ""
      · rw [if_neg (by simp [hx]), hx]
      · rw [if_pos (by simp [hx])]
    simp only [applyPendingPresetLoads, hsing]
  · intro h
    simp only [applyPendingPresetLoads]
    by_cases hp : latestNonEmpty pending = ""
    · rw [if_pos hp]
    · rw [if_neg hp, if_pos h]

/-- C4 (witness): the amended theorem's skip clause at a concrete
state whose last applied preset "x" is re-requested. -/
theorem preset_load_coalescing_witness :
    latestNonEmpty ["x"] = (⟨"", 0, emptyCache, "x", 0, 0⟩ : VizState).lastAppliedPreset ∧
    applyPendingPresetLoads ⟨fun _ => true, fun _ => ".milk", fun s => s, fun _ => 0⟩
      ⟨"", 0, emptyCache, "x", 0, 0⟩ ["x"] = ⟨"", 0, emptyCache, "x", 0, 0⟩ :=
  ⟨rfl, (preset_load_coalescing ⟨fun _ => true, fun _ => ".milk", fun s => s, fun _ => 0⟩
    ⟨"", 0, emptyCache, "x", 0, 0⟩ ["x"]).2.2 rfl⟩

end milkdawp
